import Mathlib

/-!
Verification of the core geometry, pyramid and container-writing logic of
the iSyntax-to-pyramidal-TIFF converter (`isyntax2pyramidaltiff.py`).

The Python code is shallowly embedded:
* machine integers become `Nat`/`Int` (Python ints are unbounded, so no
  wrap-around is modelled);
* `raise`/`try`/`except` become `Except`-valued functions;
* the mutable numpy canvas becomes a function `Nat → Nat → Nat → Nat`
  (row, column, channel ↦ sample value) updated functionally; the
  thread-pooled tile jobs are sequentialized into a fold, which is sound
  for canvas-content statements because each job writes a private
  rectangle;
* the external pyvips image is `VImage α`: a width, a height and an
  abstract content value; pyvips `resize(0.5)` is modelled as
  floor-halving both dimensions while transforming the content by an
  abstract resampling function `rc`;
* the tifffile `TiffWriter` directory writes are recorded as a list of
  `TiffDir` descriptors carrying exactly the tags the code sets.
-/

/-- `math.ceil(a / b)` on nonnegative integers, as used in
`extract_full_resolution_tiles` to compute `x_tiles`/`y_tiles`. -/
def ceil_div (a b : Nat) : Nat := (a + b - 1) / b

/-- Fuel-driven floor-log₂ (structural recursion so that the kernel can
evaluate it).  `log2_fuel f n` equals `⌊log₂ n⌋` whenever `n ≤ f`. -/
def log2_fuel : Nat → Nat → Nat
  | 0, _ => 0
  | f + 1, n => if n < 2 then 0 else log2_fuel f (n / 2) + 1

/-- `⌊log₂ n⌋` for positive `n` (0 for `n = 0`); models the integer part of
Python's `math.log2` on integer inputs. -/
def log2_nat (n : Nat) : Nat := log2_fuel n n

/-- One region request produced by `create_patch_list`: inclusive
source-coordinate bounds plus the resolution level (the Python code builds
the list `[x_start, x_end, y_start, y_end, level]`). -/
structure Patch where
  x_start : Int
  x_end : Int
  y_start : Int
  y_end : Int
  level : Nat
deriving DecidableEq, Repr

/-- `ISyntax2PyramidalTIFF.create_patch_list`.  A dimension range is the
triple `(origin, step, end)` exposed by the SDK.  The Python code first
evaluates `math.log2(scale_x)` (a `ValueError` for non-positive scales),
then raises if the two scales differ or the log is not an integer, and
only then builds the two parallel lists (patches, grid ids), `y` outer and
`x` inner. -/
def create_patch_list (dim_ranges_x dim_ranges_y : Int × Int × Int)
    (tiles : Nat × Nat) (tile_size : Nat × Nat) :
    Except String (List Patch × List (Nat × Nat)) :=
  let origin_x := dim_ranges_x.1
  let scale_x := dim_ranges_x.2.1
  let resolution_x_end := dim_ranges_x.2.2
  let origin_y := dim_ranges_y.1
  let scale_y := dim_ranges_y.2.1
  let resolution_y_end := dim_ranges_y.2.2
  if ¬ (0 < scale_x) then .error "math domain error"
  else
    let level := log2_nat scale_x.toNat
    if scale_x ≠ scale_y ∨ (2 : Int) ^ level ≠ scale_x then
      .error "scale_x scale_y do not match expectations!"
    else
      let tile_size_x := (tile_size.1 : Int) * scale_x
      let tile_size_y := (tile_size.2 : Int) * scale_y
      let patches := (List.range tiles.2).flatMap (fun (y : Nat) =>
        let y_start := origin_y + (y : Int) * tile_size_y
        let y_end := min (y_start + tile_size_y - scale_y)
          (resolution_y_end - scale_y)
        (List.range tiles.1).map (fun (x : Nat) =>
          let x_start := origin_x + (x : Int) * tile_size_x
          let x_end := min (x_start + tile_size_x - scale_x)
            (resolution_x_end - scale_x)
          ⟨x_start, x_end, y_start, y_end, level⟩))
      let patch_ids := (List.range tiles.2).flatMap (fun y =>
        (List.range tiles.1).map (fun x => (x, y)))
      .ok (patches, patch_ids)

/-- `ISyntax2PyramidalTIFF.get_size`: pixel length of one dimension range,
`(end - origin) / step`, raising when the step is zero (Python
`ZeroDivisionError`) or the quotient has a remainder (the code's explicit
`ValueError`). -/
def get_size (dim_range : Int × Int × Int) : Except String Int :=
  let origin := dim_range.1
  let step := dim_range.2.1
  let stop := dim_range.2.2
  if step = 0 then .error "division by zero"
  else if (stop - origin) % step = 0 then .ok ((stop - origin) / step)
  else .error "results in remainder!"

/-- Realized pixel width of a patch, as computed in
`extract_full_resolution_tiles`: `width = int(1 + (x_end - x_start) / scale_x)`. -/
def realized_width (scale : Int) (p : Patch) : Int :=
  1 + (p.x_end - p.x_start) / scale

/-- Realized pixel height of a patch:
`height = int(1 + (y_end - y_start) / scale_y)`. -/
def realized_height (scale : Int) (p : Patch) : Int :=
  1 + (p.y_end - p.y_start) / scale

/-- Pixel `(px, py)` (in level pixel units) lies inside the patch's
inclusive source-coordinate bounds: the source coordinate of the pixel is
`px * scale` on the x axis and `py * scale` on the y axis. -/
def patch_covers (scale : Int) (p : Patch) (px py : Nat) : Prop :=
  p.x_start ≤ px * scale ∧ (px : Int) * scale ≤ p.x_end ∧
    p.y_start ≤ py * scale ∧ (py : Int) * scale ≤ p.y_end

instance (scale : Int) (p : Patch) (px py : Nat) :
    Decidable (patch_covers scale p px py) := by
  unfold patch_covers; infer_instance

/-- `ISyntax2PyramidalTIFF.make_planar`: de-interleave the flat RGB sample
buffer into three channel planes of shape `(tile_height, tile_width)`; the
plane for channel `ch` at row `r`, column `c` holds flat sample
`3 * (r * tile_width + c) + ch` (numpy slicing `pixels[ch::3]` reshaped
row-major). -/
def make_planar (pixels : Nat → Nat) (tile_width tile_height : Nat) :
    Nat → Nat → Nat → Nat :=
  fun ch r c => pixels (3 * (r * tile_width + c) + ch)

/-- `ISyntax2PyramidalTIFF.process_tile`.  The whole body runs inside
`try/except`: a raised exception is logged and swallowed, leaving the
shared output array untouched (modelled by the `.error` branch).  On
success the planar planes are transposed to height×width×channel order and
copied into the output array at the grid-derived offset, clipped to the
canvas bounds. -/
def process_tile (tile_size H W : Nat) (output_array : Nat → Nat → Nat → Nat)
    (pixels : Except String (Nat → Nat)) (tile_x tile_y width height : Nat) :
    Nat → Nat → Nat → Nat :=
  match pixels with
  | .error _ => output_array
  | .ok buf =>
    let planar_pixels := make_planar buf width height
    let tile_data := fun r c ch => planar_pixels ch r c
    let y_start := tile_y * tile_size
    let x_start := tile_x * tile_size
    let y_end := min (y_start + height) H
    let x_end := min (x_start + width) W
    fun r c ch =>
      if y_start ≤ r ∧ r < y_end ∧ x_start ≤ c ∧ c < x_end then
        tile_data (r - y_start) (c - x_start) ch
      else output_array r c ch

/-- `ISyntax2PyramidalTIFF.extract_full_resolution_tiles` at level 0
(origin 0, step 1, end = pixel size, the level-0 shape of the SDK's
dimension ranges).  `tile_source id` models the bytes delivered by
`region.get` for grid cell `id`, or the exception raised while processing
that tile.  The canvas starts as `np.zeros` and the concurrently submitted
`process_tile` jobs are sequentialized into a fold (each job writes a
disjoint rectangle). -/
def extract_full_resolution_tiles (W H tile_size : Nat)
    (tile_source : Nat × Nat → Except String (Nat → Nat)) :
    Nat → Nat → Nat → Nat :=
  let dim_ranges_x : Int × Int × Int := (0, 1, (W : Int))
  let dim_ranges_y : Int × Int × Int := (0, 1, (H : Int))
  let x_tiles := ceil_div W tile_size
  let y_tiles := ceil_div H tile_size
  let scale_x : Int := 1
  let scale_y : Int := 1
  match create_patch_list dim_ranges_x dim_ranges_y (x_tiles, y_tiles)
      (tile_size, tile_size) with
  | .error _ => fun _ _ _ => 0
  | .ok (patches, patch_ids) =>
    (patches.zip patch_ids).foldl
      (fun output_array ppid =>
        let width := (1 + (ppid.1.x_end - ppid.1.x_start) / scale_x).toNat
        let height := (1 + (ppid.1.y_end - ppid.1.y_start) / scale_y).toNat
        process_tile tile_size H W output_array (tile_source ppid.2)
          ppid.2.1 ppid.2.2 width height)
      (fun _ _ _ => 0)

/-- A pyvips image: concrete pixel dimensions plus abstract content (the
pixel payload lives in the external pyvips library). -/
structure VImage (α : Type) where
  width : Nat
  height : Nat
  content : α
deriving DecidableEq, Repr

/-- The external pyvips call `image.resize(0.5, kernel='lanczos3')`:
halves both dimensions (floor) and resamples the content through the
abstract kernel `rc`. -/
def resize_half {α : Type} (rc : VImage α → α) (img : VImage α) : VImage α :=
  ⟨img.width / 2, img.height / 2, rc img⟩

/-- The `while` loop of `ISyntax2PyramidalTIFF.generate_pyramid_levels`:
while the current image is at least 256×256, halve it and append the
result, breaking as soon as the freshly appended level is smaller than
512 in either dimension. -/
def pyramid_rest {α : Type} (rc : VImage α → α) (current_image : VImage α) :
    List (VImage α) :=
  if h : 256 ≤ current_image.width ∧ 256 ≤ current_image.height then
    let nxt := resize_half rc current_image
    nxt :: (if nxt.width < 512 ∨ nxt.height < 512 then []
      else pyramid_rest rc nxt)
  else []
termination_by current_image.width
decreasing_by
  simp only [resize_half]
  omega

/-- `ISyntax2PyramidalTIFF.generate_pyramid_levels`: the base image
followed by the levels produced by the halving loop. -/
def generate_pyramid_levels {α : Type} (rc : VImage α → α)
    (vips_image : VImage α) : List (VImage α) :=
  vips_image :: pyramid_rest rc vips_image

/-- The pyramid-level enumeration of `save_pyramidal_tiff` used for the
XML metadata: starting from `(size_x, size_y)`, append the current
dimensions and integer-halve while both are at least 256. -/
def xml_pyramid_levels (size_x size_y : Nat) : List (Nat × Nat) :=
  if h : 256 ≤ size_x ∧ 256 ≤ size_y then
    (size_x, size_y) :: xml_pyramid_levels (size_x / 2) (size_y / 2)
  else []
termination_by size_x
decreasing_by omega

/-- The `save_params` dictionary built in `save_pyramidal_tiff` (the
fields the claims are about). -/
structure SaveParams where
  tile : Bool
  tile_width : Nat
  tile_height : Nat
  pyramid : Bool
  bigtiff : Bool
  xres : ℚ
  yres : ℚ
  resunit : String
deriving DecidableEq, Repr

/-- `save_pyramidal_tiff` builds `save_params` with tiling, pyramid and
bigtiff on, and `10000 / pixel_size` pixels-per-centimeter resolution
(guarded to 1.0 for non-positive pixel sizes). -/
def save_params_of (pixel_size_x pixel_size_y : ℚ) (tile_size : Nat) :
    SaveParams :=
  { tile := true
    tile_width := tile_size
    tile_height := tile_size
    pyramid := true
    bigtiff := true
    xres := if 0 < pixel_size_x then 10000 / pixel_size_x else 1
    yres := if 0 < pixel_size_y then 10000 / pixel_size_y else 1
    resunit := "cm" }

/-- Which `tif.write` call produced a directory: a pyramid level, the
overview (a.k.a. "MACROIMAGE") or the label image. -/
inductive TiffDirSource where
  | pyramid_level (i : Nat)
  | overview_dir
  | label_dir
deriving DecidableEq, Repr

/-- One TIFF directory as written by `tifffile.TiffWriter.write`,
recording the tags the code passes: subfiletype, tiling (present for
pyramid levels, absent for the stripped auxiliary images), and the
resolution tags (absent for the auxiliary images). -/
structure TiffDir where
  src : TiffDirSource
  width : Nat
  height : Nat
  subfiletype : Nat
  tile : Option (Nat × Nat)
  resolution : Option (ℚ × ℚ)
  resolutionunit : Option String
deriving DecidableEq, Repr

/-- Result of `save_multi_directory_tiff_with_xml`: either the
multi-directory container, or the pyvips `tiffsave` fallback (base image
only, no auxiliary directories), each with the log lines emitted. -/
inductive WriterOutcome where
  | multi_dir (dirs : List TiffDir) (logs : List String)
  | fallback_save (width height : Nat) (params : SaveParams)
      (logs : List String)
deriving DecidableEq, Repr

/-- `ISyntax2PyramidalTIFF.save_multi_directory_tiff_with_xml`.  The body
runs in `try/except`; `assembly_fails` injects an exception anywhere in
the multi-directory assembly, upon which the code logs the failure and
falls back to `vips_image.tiffsave(self.output_path, **save_params)` on
the base image alone (auxiliary images dropped).  On success it writes
every pyramid level (subfiletype 0 for the base, 1 afterwards, tiled,
with pixels-per-centimeter resolution tags), then the overview image and
last the label image (subfiletype 1, stripped, no resolution tags). -/
def save_multi_directory_tiff_with_xml {α : Type}
    (pixel_size_x pixel_size_y : ℚ) (tile_size : Nat)
    (rc : VImage α → α) (vips_image : VImage α)
    (overview_image label_image : Option (VImage α))
    (save_params : SaveParams) (assembly_fails : Bool) : WriterOutcome :=
  if assembly_fails then
    .fallback_save vips_image.width vips_image.height save_params
      ["Failed to create multi-directory TIFF with tifffile",
       "Falling back to pyvips pyramidal save",
       "Metadata may not be properly set in fallback mode"]
  else
    let pyramid_images := generate_pyramid_levels rc vips_image
    let pixels_per_cm_x : ℚ :=
      if 0 < pixel_size_x then 10000 / pixel_size_x else 1
    let pixels_per_cm_y : ℚ :=
      if 0 < pixel_size_y then 10000 / pixel_size_y else 1
    let pyramid_dirs := pyramid_images.enum.map (fun li =>
      { src := .pyramid_level li.1
        width := li.2.width
        height := li.2.height
        subfiletype := if li.1 = 0 then 0 else 1
        tile := some (tile_size, tile_size)
        resolution := some (pixels_per_cm_x, pixels_per_cm_y)
        resolutionunit := some "CENTIMETER" : TiffDir })
    let overview_dirs := match overview_image with
      | none => []
      | some m =>
        [{ src := .overview_dir
           width := m.width
           height := m.height
           subfiletype := 1
           tile := none
           resolution := none
           resolutionunit := none : TiffDir }]
    let label_dirs := match label_image with
      | none => []
      | some l =>
        [{ src := .label_dir
           width := l.width
           height := l.height
           subfiletype := 1
           tile := none
           resolution := none
           resolutionunit := none : TiffDir }]
    .multi_dir (pyramid_dirs ++ overview_dirs ++ label_dirs)
      ["Multi-directory TIFF created successfully with tifffile"]

/-- The closed form of the (patch, grid-id) pair list that
`create_patch_list` produces for origin-0 ranges with step `s`:
element `(x, y)` runs from source coordinate `x·T·s` to
`(min((x+1)·T, w) − 1)·s` inclusive (and analogously on y). -/
def grid_pairs (tx ty T w h : Nat) (s : Int) (lvl : Nat) :
    List (Patch × (Nat × Nat)) :=
  (List.range ty).flatMap (fun y =>
    (List.range tx).map (fun x =>
      (⟨((x * T : Nat) : Int) * s, (((min ((x + 1) * T) w : Nat) : Int) - 1) * s,
        ((y * T : Nat) : Int) * s, (((min ((y + 1) * T) h : Nat) : Int) - 1) * s,
        lvl⟩, (x, y))))

/-- The identity resampling kernel on contentless images, used to run the
pyramid loop on concrete dimensions. -/
def rc_unit : VImage Unit → Unit := fun _ => ()

/-- The auxiliary overview ("MACROIMAGE") directory as written by
`save_multi_directory_tiff_with_xml`: subfiletype 1, stripped (no tile),
no resolution tags. -/
def overview_dir_of {α : Type} (m : VImage α) : TiffDir :=
  ⟨.overview_dir, m.width, m.height, 1, none, none, none⟩

/-- The auxiliary label directory as written by
`save_multi_directory_tiff_with_xml`: subfiletype 1, stripped (no tile),
no resolution tags. -/
def label_dir_of {α : Type} (l : VImage α) : TiffDir :=
  ⟨.label_dir, l.width, l.height, 1, none, none, none⟩

/-- The grid element for cell `(x, y)` at level 0 (step 1), the shape of
the pairs produced by `create_patch_list` inside
`extract_full_resolution_tiles`. -/
def grid_cell (T W H x y : Nat) : Patch × (Nat × Nat) :=
  (⟨((x * T : Nat) : Int) * 1, (((min ((x + 1) * T) W : Nat) : Int) - 1) * 1,
    ((y * T : Nat) : Int) * 1, (((min ((y + 1) * T) H : Nat) : Int) - 1) * 1,
    0⟩, (x, y))

/-- The canvas rectangle written by the tile job for grid cell
`(gx, gy)`: rows `[gy·T, min((gy+1)·T, H))`, columns
`[gx·T, min((gx+1)·T, W))`. -/
def in_tile_rect (T W H gx gy r c : Nat) : Prop :=
  gy * T ≤ r ∧ r < min ((gy + 1) * T) H ∧
    gx * T ≤ c ∧ c < min ((gx + 1) * T) W

instance (T W H gx gy r c : Nat) :
    Decidable (in_tile_rect T W H gx gy r c) := by
  unfold in_tile_rect; infer_instance

/-- One iteration of the tile-processing fold of
`extract_full_resolution_tiles`: realized width/height are read off the
patch (step 1) and the tile is processed through `process_tile`. -/
def tile_step (T H W : Nat) (src : Nat × Nat → Except String (Nat → Nat))
    (output_array : Nat → Nat → Nat → Nat) (pr : Patch × (Nat × Nat)) :
    Nat → Nat → Nat → Nat :=
  process_tile T H W output_array (src pr.2) pr.2.1 pr.2.2
    ((1 + (pr.1.x_end - pr.1.x_start) / 1).toNat)
    ((1 + (pr.1.y_end - pr.1.y_start) / 1).toNat)

/-- A tile source on which every grid cell succeeds with a constant
sample value of 200. -/
def tile_ok_ex : Nat × Nat → Except String (Nat → Nat) :=
  fun _ => .ok (fun _ => 200)

/-- The same tile source, except that processing the tile for grid cell
(0, 0) raises. -/
def tile_fail_ex : Nat × Nat → Except String (Nat → Nat) :=
  fun pid => if pid = (0, 0) then .error "tile failure" else .ok (fun _ => 200)

/-! ### Arithmetic helper lemmas -/

theorem log2_fuel_bounds : ∀ f n, 0 < n → n ≤ f →
    2 ^ log2_fuel f n ≤ n ∧ n < 2 ^ (log2_fuel f n + 1) := by
  intro f
  induction f with
  | zero => intro n h1 h2; omega
  | succ f ih =>
    intro n h1 h2
    rw [log2_fuel]
    by_cases hn : n < 2
    · simp only [if_pos hn]
      omega
    · simp only [if_neg hn]
      have hrec := ih (n / 2) (by omega) (by omega)
      have e1 : 2 ^ (log2_fuel f (n / 2) + 1) = 2 * 2 ^ log2_fuel f (n / 2) := by
        rw [pow_succ]; ring
      have e2 : 2 ^ (log2_fuel f (n / 2) + 1 + 1) =
          2 * 2 ^ (log2_fuel f (n / 2) + 1) := by
        rw [pow_succ _ (log2_fuel f (n / 2) + 1)]; ring
      omega

theorem log2_nat_pow (k : Nat) : log2_nat (2 ^ k) = k := by
  have h := log2_fuel_bounds (2 ^ k) (2 ^ k) (Nat.pos_pow_of_pos k (by norm_num))
    le_rfl
  unfold log2_nat
  rcases Nat.lt_trichotomy (log2_fuel (2 ^ k) (2 ^ k)) k with hlt | heq | hgt
  · exfalso
    have : 2 ^ (log2_fuel (2 ^ k) (2 ^ k) + 1) ≤ 2 ^ k :=
      Nat.pow_le_pow_right (by norm_num) (by omega)
    omega
  · exact heq
  · exfalso
    have : 2 ^ k < 2 ^ log2_fuel (2 ^ k) (2 ^ k) :=
      Nat.pow_lt_pow_right (by norm_num) hgt
    omega

theorem log2_nat_pow_iff (n : Nat) (hn : 0 < n) :
    2 ^ log2_nat n = n ↔ ∃ k, n = 2 ^ k := by
  constructor
  · intro h; exact ⟨log2_nat n, h.symm⟩
  · rintro ⟨k, rfl⟩; rw [log2_nat_pow]

theorem ceil_div_spec (w T : Nat) (hT : 0 < T) (hw : 0 < w) :
    w ≤ ceil_div w T * T ∧ ceil_div w T * T < w + T ∧ 0 < ceil_div w T := by
  unfold ceil_div
  have h1 := Nat.div_add_mod (w + T - 1) T
  have h2 := Nat.mod_lt (w + T - 1) hT
  have h3 : 0 < (w + T - 1) / T := Nat.div_pos (by omega) hT
  have h4 : (w + T - 1) / T * T = T * ((w + T - 1) / T) := Nat.mul_comm _ _
  omega

theorem create_patch_list_pow (w h T k tx ty : Nat) :
    create_patch_list (0, (2 : Int) ^ k, (w : Int) * 2 ^ k)
        (0, (2 : Int) ^ k, (h : Int) * 2 ^ k) (tx, ty) (T, T) =
      .ok ((grid_pairs tx ty T w h ((2 : Int) ^ k) k).map Prod.fst,
           (grid_pairs tx ty T w h ((2 : Int) ^ k) k).map Prod.snd) := by
  have hs : (0 : Int) < 2 ^ k := pow_pos (by norm_num) k
  have htn : ((2 : Int) ^ k).toNat = 2 ^ k := by
    rw [show ((2 : Int) ^ k) = ((2 ^ k : Nat) : Int) by push_cast; ring,
      Int.toNat_natCast]
  have hmin : ∀ (z n : Nat),
      min (0 + (z : Int) * ((T : Int) * 2 ^ k) + (T : Int) * 2 ^ k - 2 ^ k)
          ((n : Int) * 2 ^ k - 2 ^ k) =
        (((min ((z + 1) * T) n : Nat) : Int) - 1) * 2 ^ k := by
    intro z n
    rw [show 0 + (z : Int) * ((T : Int) * 2 ^ k) + (T : Int) * 2 ^ k - 2 ^ k
        = ((z : Int) * T + T - 1) * 2 ^ k by ring,
      show (n : Int) * 2 ^ k - 2 ^ k = ((n : Int) - 1) * 2 ^ k by ring,
      ← min_mul_of_nonneg _ _ hs.le]
    congr 1
    push_cast
    rw [show ((z : Int) + 1) * (T : Int) = (z : Int) * T + T by ring]
    omega
  simp only [create_patch_list]
  rw [if_neg (not_not_intro hs), htn, log2_nat_pow,
    if_neg (by simp)]
  simp only [Except.ok.injEq, Prod.mk.injEq]
  constructor
  · unfold grid_pairs
    rw [List.map_flatMap]
    apply congrArg
    funext y
    rw [List.map_map]
    apply List.map_congr_left
    intro x _
    simp only [Function.comp_apply, Patch.mk.injEq]
    refine ⟨by push_cast; ring, hmin x w, by push_cast; ring, hmin y h, trivial⟩
  · unfold grid_pairs
    rw [List.map_flatMap]
    apply congrArg
    funext y
    rw [List.map_map]
    apply List.map_congr_left
    intro x _
    simp [Function.comp]

theorem mem_grid_pairs {tx ty T w h : Nat} {s : Int} {lvl : Nat}
    {pr : Patch × (Nat × Nat)} :
    pr ∈ grid_pairs tx ty T w h s lvl ↔
      ∃ y, y < ty ∧ ∃ x, x < tx ∧
        pr = (⟨((x * T : Nat) : Int) * s,
          (((min ((x + 1) * T) w : Nat) : Int) - 1) * s,
          ((y * T : Nat) : Int) * s,
          (((min ((y + 1) * T) h : Nat) : Int) - 1) * s, lvl⟩, (x, y)) := by
  unfold grid_pairs
  simp only [List.mem_flatMap, List.mem_map, List.mem_range]
  constructor
  · rintro ⟨y, hy, x, hx, rfl⟩
    exact ⟨y, hy, x, hx, rfl⟩
  · rintro ⟨y, hy, x, hx, rfl⟩
    exact ⟨y, hy, x, hx, rfl⟩

theorem zip_grid_pairs (tx ty T w h : Nat) (s : Int) (lvl : Nat) :
    ((grid_pairs tx ty T w h s lvl).map Prod.fst).zip
        ((grid_pairs tx ty T w h s lvl).map Prod.snd) =
      grid_pairs tx ty T w h s lvl := by
  rw [List.zip_map']
  simp

theorem length_grid_pairs (tx ty T w h : Nat) (s : Int) (lvl : Nat) :
    (grid_pairs tx ty T w h s lvl).length = ty * tx := by
  unfold grid_pairs
  induction ty with
  | zero => simp
  | succ n ih =>
    rw [List.range_succ, List.flatMap_append, List.length_append, ih]
    simp [Nat.succ_mul]

theorem axis_cell (w T x : Nat) (hT : 0 < T) (hw : 0 < w)
    (hx : x < ceil_div w T) :
    x * T < w ∧ x * T < min ((x + 1) * T) w ∧
      min ((x + 1) * T) w - x * T =
        (if x + 1 = ceil_div w T ∧ w % T ≠ 0 then w % T else T) := by
  obtain ⟨hc1, hc2, hc3⟩ := ceil_div_spec w T hT hw
  rw [Nat.succ_mul]
  have hmul2 : x * T + T ≤ ceil_div w T * T := by
    rw [← Nat.succ_mul]
    exact Nat.mul_le_mul_right T hx
  have part1 : x * T < w := by omega
  refine ⟨part1, by omega, ?_⟩
  by_cases hlast : x + 1 = ceil_div w T
  · rw [← hlast, Nat.succ_mul] at hc1 hc2
    have h5 : w ≤ x * T + T := hc1
    have hq := Nat.div_add_mod w T
    have hr := Nat.mod_lt w hT
    have hcm : T * (w / T) = (w / T) * T := Nat.mul_comm _ _
    have hsm : (w / T) * T + T = (w / T + 1) * T := (Nat.succ_mul _ _).symm
    by_cases hrz : w % T = 0
    · -- w is an exact multiple of T: the last cell is full
      have hx1 : x < w / T := by
        apply Nat.lt_of_mul_lt_mul_right (a := T)
        omega
      have hx2 : w / T ≤ x + 1 := by
        apply Nat.le_of_mul_le_mul_right _ hT
        rw [Nat.succ_mul]
        omega
      have hfin : (w / T) * T = x * T + T := by
        have : w / T = x + 1 := by omega
        rw [this, Nat.succ_mul]
      rw [if_neg (by simp [hrz])]
      omega
    · -- remainder: the last cell is the remainder
      have hx1 : x ≤ w / T := by
        have h6 : x * T < (w / T + 1) * T := by omega
        have := Nat.lt_of_mul_lt_mul_right h6
        omega
      have hx2 : w / T ≤ x := by
        have h6 : (w / T) * T < x * T + T := by omega
        rw [show x * T + T = (x + 1) * T from (Nat.succ_mul _ _).symm] at h6
        have := Nat.lt_of_mul_lt_mul_right h6
        omega
      have hfin : (w / T) * T = x * T := by
        have : w / T = x := by omega
        rw [this]
      rw [if_pos ⟨hlast, hrz⟩]
      omega
  · -- not the last column: the cell is full width T
    have h7 : (x + 2) * T ≤ ceil_div w T * T :=
      Nat.mul_le_mul_right T (by omega)
    have h9 : (x + 2) * T = x * T + T + T := by
      rw [show x + 2 = (x + 1) + 1 from rfl, Nat.succ_mul, Nat.succ_mul]
    rw [if_neg (by tauto)]
    omega

theorem axis_find (w T : Nat) (hT : 0 < T) (hw : 0 < w) (px : Nat)
    (hpx : px < w) :
    ∃ x, x < ceil_div w T ∧ x * T ≤ px ∧ px < (x + 1) * T ∧
      ∀ x₂, x₂ * T ≤ px → px < (x₂ + 1) * T → x₂ = x := by
  obtain ⟨hc1, hc2, hc3⟩ := ceil_div_spec w T hT hw
  have h1 := Nat.div_add_mod px T
  have h2 := Nat.mod_lt px hT
  have h3 := Nat.div_mul_le_self px T
  have hcm : T * (px / T) = (px / T) * T := Nat.mul_comm _ _
  refine ⟨px / T, ?_, h3, ?_, ?_⟩
  · apply Nat.lt_of_mul_lt_mul_right (a := T)
    omega
  · rw [Nat.succ_mul]
    omega
  · intro x₂ hl hh
    rw [Nat.succ_mul] at hh
    by_contra hne
    rcases Nat.lt_or_ge x₂ (px / T) with hlt | hge
    · have h4 : (x₂ + 1) * T ≤ (px / T) * T := Nat.mul_le_mul_right T hlt
      rw [Nat.succ_mul] at h4
      omega
    · have hgt : px / T + 1 ≤ x₂ := by omega
      have h4 : (px / T + 1) * T ≤ x₂ * T := Nat.mul_le_mul_right T hgt
      rw [Nat.succ_mul] at h4
      omega

theorem covers_cell_iff (w h T : Nat) (s : Int) (hs : 0 < s)
    (x y px py lvl : Nat) :
    patch_covers s
        ⟨((x * T : Nat) : Int) * s, (((min ((x + 1) * T) w : Nat) : Int) - 1) * s,
         ((y * T : Nat) : Int) * s, (((min ((y + 1) * T) h : Nat) : Int) - 1) * s,
         lvl⟩ px py ↔
      (x * T ≤ px ∧ px < min ((x + 1) * T) w ∧
        y * T ≤ py ∧ py < min ((y + 1) * T) h) := by
  unfold patch_covers
  simp only
  have key1 : ∀ a b : Nat, (((a : Nat) : Int) * s ≤ (b : Int) * s ↔ a ≤ b) := by
    intro a b
    constructor
    · intro hab
      have := le_of_mul_le_mul_right hab hs
      exact_mod_cast this
    · intro hab
      exact mul_le_mul_of_nonneg_right (by exact_mod_cast hab) hs.le
  have key2 : ∀ (b m : Nat), ((b : Int) * s ≤ ((m : Int) - 1) * s ↔ b < m) := by
    intro b m
    constructor
    · intro hab
      have := le_of_mul_le_mul_right hab hs
      omega
    · intro hab
      exact mul_le_mul_of_nonneg_right (by omega) hs.le
  rw [key1, key2, key1, key2]

theorem realized_width_cell (T w x : Nat) (ys ye : Int) (s : Int) (hs : 0 < s)
    (lvl : Nat) :
    realized_width s
        ⟨((x * T : Nat) : Int) * s, (((min ((x + 1) * T) w : Nat) : Int) - 1) * s,
         ys, ye, lvl⟩ =
      ((min ((x + 1) * T) w : Nat) : Int) - ((x * T : Nat) : Int) := by
  unfold realized_width
  simp only
  rw [show (((min ((x + 1) * T) w : Nat) : Int) - 1) * s - ((x * T : Nat) : Int) * s
      = s * (((min ((x + 1) * T) w : Nat) : Int) - 1 - ((x * T : Nat) : Int)) by ring,
    Int.mul_ediv_cancel_left _ (ne_of_gt hs)]
  ring

theorem realized_height_cell (T h y : Nat) (xs xe : Int) (s : Int) (hs : 0 < s)
    (lvl : Nat) :
    realized_height s
        ⟨xs, xe,
         ((y * T : Nat) : Int) * s, (((min ((y + 1) * T) h : Nat) : Int) - 1) * s,
         lvl⟩ =
      ((min ((y + 1) * T) h : Nat) : Int) - ((y * T : Nat) : Int) := by
  unfold realized_height
  simp only
  rw [show (((min ((y + 1) * T) h : Nat) : Int) - 1) * s - ((y * T : Nat) : Int) * s
      = s * (((min ((y + 1) * T) h : Nat) : Int) - 1 - ((y * T : Nat) : Int)) by ring,
    Int.mul_ediv_cancel_left _ (ne_of_gt hs)]
  ring

theorem mem_grid_fst {tx ty T w h : Nat} {s : Int} {lvl : Nat} {p : Patch} :
    p ∈ (grid_pairs tx ty T w h s lvl).map Prod.fst ↔
      ∃ y, y < ty ∧ ∃ x, x < tx ∧
        p = ⟨((x * T : Nat) : Int) * s,
          (((min ((x + 1) * T) w : Nat) : Int) - 1) * s,
          ((y * T : Nat) : Int) * s,
          (((min ((y + 1) * T) h : Nat) : Int) - 1) * s, lvl⟩ := by
  simp only [List.mem_map]
  constructor
  · rintro ⟨pr, hpr, rfl⟩
    obtain ⟨y, hy, x, hx, rfl⟩ := mem_grid_pairs.mp hpr
    exact ⟨y, hy, x, hx, rfl⟩
  · rintro ⟨y, hy, x, hx, rfl⟩
    exact ⟨_, mem_grid_pairs.mpr ⟨y, hy, x, hx, rfl⟩, rfl⟩

/-- C1: for origin-0 dimension ranges with a power-of-two step and integer
pixel lengths `w × h`, and the ceil-based tile counts used by
`extract_full_resolution_tiles`, `create_patch_list` succeeds and its
patches — read back as pixel rectangles through their inclusive
source-coordinate bounds — partition `[0,w) × [0,h)`: every pixel lies in
exactly one patch, no patch is empty or overruns the image, the last
row/column is exactly the remainder (strictly smaller than the tile size)
when the axis length is not a multiple of the tile size, and every patch
(including the trailing ones) is exactly tile-sized when it is. -/
theorem create_patch_list_partitions (w h T k : Nat)
    (hT : 0 < T) (hw : 0 < w) (hh : 0 < h) :
    ∃ ps ids,
      create_patch_list (0, (2 : Int) ^ k, (w : Int) * 2 ^ k)
          (0, (2 : Int) ^ k, (h : Int) * 2 ^ k)
          (ceil_div w T, ceil_div h T) (T, T) = .ok (ps, ids) ∧
      ps.length = ceil_div w T * ceil_div h T ∧
      (∀ px py, px < w → py < h →
        ∃! p, p ∈ ps ∧ patch_covers ((2 : Int) ^ k) p px py) ∧
      (∀ p ∈ ps,
        1 ≤ realized_width ((2 : Int) ^ k) p ∧
        1 ≤ realized_height ((2 : Int) ^ k) p ∧
        0 ≤ p.x_start ∧ p.x_end ≤ ((w : Int) - 1) * 2 ^ k ∧
        0 ≤ p.y_start ∧ p.y_end ≤ ((h : Int) - 1) * 2 ^ k) ∧
      (∀ pr ∈ ps.zip ids,
        realized_width ((2 : Int) ^ k) pr.1 =
          (if pr.2.1 + 1 = ceil_div w T ∧ w % T ≠ 0 then ((w % T : Nat) : Int)
            else (T : Int)) ∧
        realized_height ((2 : Int) ^ k) pr.1 =
          (if pr.2.2 + 1 = ceil_div h T ∧ h % T ≠ 0 then ((h % T : Nat) : Int)
            else (T : Int))) ∧
      (w % T ≠ 0 → ((w % T : Nat) : Int) < T) ∧
      (h % T ≠ 0 → ((h % T : Nat) : Int) < T) := by
  have hs : (0 : Int) < 2 ^ k := pow_pos (by norm_num) k
  refine ⟨_, _, create_patch_list_pow w h T k (ceil_div w T) (ceil_div h T),
    ?_, ?_, ?_, ?_, ?_, ?_⟩
  · rw [List.length_map, length_grid_pairs]
    exact Nat.mul_comm _ _
  · -- exact cover
    intro px py hpx hpy
    obtain ⟨x, hxlt, hx1, hx2, hxu⟩ := axis_find w T hT hw px hpx
    obtain ⟨y, hylt, hy1, hy2, hyu⟩ := axis_find h T hT hh py hpy
    refine ⟨⟨((x * T : Nat) : Int) * 2 ^ k,
      (((min ((x + 1) * T) w : Nat) : Int) - 1) * 2 ^ k,
      ((y * T : Nat) : Int) * 2 ^ k,
      (((min ((y + 1) * T) h : Nat) : Int) - 1) * 2 ^ k, k⟩, ⟨?_, ?_⟩, ?_⟩
    · exact mem_grid_fst.mpr ⟨y, hylt, x, hxlt, rfl⟩
    · exact (covers_cell_iff w h T _ hs x y px py k).mpr
        ⟨hx1, by omega, hy1, by omega⟩
    · rintro q ⟨hqmem, hqcov⟩
      obtain ⟨y₂, hy₂, x₂, hx₂, rfl⟩ := mem_grid_fst.mp hqmem
      obtain ⟨ha1, ha2, ha3, ha4⟩ :=
        (covers_cell_iff w h T _ hs x₂ y₂ px py k).mp hqcov
      have ex : x₂ = x := hxu x₂ ha1 (by omega)
      have ey : y₂ = y := hyu y₂ ha3 (by omega)
      rw [ex, ey]
  · -- patches are nonempty and inside the image
    intro p hp
    obtain ⟨y, hy, x, hx, rfl⟩ := mem_grid_fst.mp hp
    obtain ⟨hax1, hax2, _⟩ := axis_cell w T x hT hw hx
    obtain ⟨hay1, hay2, _⟩ := axis_cell h T y hT hh hy
    have hminw : min ((x + 1) * T) w ≤ w := min_le_right _ _
    have hminh : min ((y + 1) * T) h ≤ h := min_le_right _ _
    refine ⟨?_, ?_, ?_, ?_, ?_, ?_⟩
    · rw [realized_width_cell T w x _ _ _ hs]
      omega
    · rw [realized_height_cell T h y _ _ _ hs]
      omega
    · simp only
      positivity
    · simp only
      apply mul_le_mul_of_nonneg_right _ hs.le
      omega
    · simp only
      positivity
    · simp only
      apply mul_le_mul_of_nonneg_right _ hs.le
      omega
  · -- realized sizes per grid id
    rw [zip_grid_pairs]
    intro pr hpr
    obtain ⟨y, hy, x, hx, rfl⟩ := mem_grid_pairs.mp hpr
    obtain ⟨hax1, hax2, hax3⟩ := axis_cell w T x hT hw hx
    obtain ⟨hay1, hay2, hay3⟩ := axis_cell h T y hT hh hy
    constructor
    · rw [realized_width_cell T w x _ _ _ hs]
      simp only
      by_cases hcond : x + 1 = ceil_div w T ∧ w % T ≠ 0
      · rw [if_pos hcond]
        rw [if_pos hcond] at hax3
        omega
      · rw [if_neg hcond]
        rw [if_neg hcond] at hax3
        omega
    · rw [realized_height_cell T h y _ _ _ hs]
      simp only
      by_cases hcond : y + 1 = ceil_div h T ∧ h % T ≠ 0
      · rw [if_pos hcond]
        rw [if_pos hcond] at hay3
        omega
      · rw [if_neg hcond]
        rw [if_neg hcond] at hay3
        omega
  · intro _
    have := Nat.mod_lt w hT
    exact_mod_cast this
  · intro _
    have := Nat.mod_lt h hT
    exact_mod_cast this

theorem create_patch_list_partitions_witness :
    ∃ ps ids,
      create_patch_list (0, (2 : Int) ^ 0, (1500 : Int) * 2 ^ 0)
          (0, (2 : Int) ^ 0, (1100 : Int) * 2 ^ 0)
          (ceil_div 1500 1024, ceil_div 1100 1024) (1024, 1024) =
        .ok (ps, ids) ∧
      ps.length = ceil_div 1500 1024 * ceil_div 1100 1024 := by
  obtain ⟨ps, ids, h1, h2, -⟩ :=
    create_patch_list_partitions 1500 1100 1024 0 (by decide) (by decide)
      (by decide)
  exact ⟨ps, ids, h1, h2⟩

/-- C6: a 1500×1100 level-0 raster (origin 0, step 1) with tile size 1024
yields ceil-based tile counts 2×2, exactly four patches in the 2×2 grid,
and the patch carrying grid id (1, 1) has realized pixel extent 476×76 —
not 1024×1024. -/
theorem create_patch_list_concrete_1500x1100 :
    ceil_div 1500 1024 = 2 ∧ ceil_div 1100 1024 = 2 ∧
    create_patch_list (0, 1, 1500) (0, 1, 1100)
        (ceil_div 1500 1024, ceil_div 1100 1024) (1024, 1024) =
      .ok ([⟨0, 1023, 0, 1023, 0⟩, ⟨1024, 1499, 0, 1023, 0⟩,
            ⟨0, 1023, 1024, 1099, 0⟩, ⟨1024, 1499, 1024, 1099, 0⟩],
           [(0, 0), (1, 0), (0, 1), (1, 1)]) ∧
    realized_width 1 ⟨1024, 1499, 1024, 1099, 0⟩ = 476 ∧
    realized_height 1 ⟨1024, 1499, 1024, 1099, 0⟩ = 76 ∧
    ¬ (realized_width 1 ⟨1024, 1499, 1024, 1099, 0⟩ = 1024 ∧
       realized_height 1 ⟨1024, 1499, 1024, 1099, 0⟩ = 1024) :=
  ⟨by decide, by decide, by rfl, by decide, by decide, by decide⟩

theorem int_pow_log2_iff (s : Int) (hs : 0 < s) :
    (2 : Int) ^ log2_nat s.toNat = s ↔ ∃ j : Nat, s = (2 : Int) ^ j := by
  constructor
  · intro hsome
    exact ⟨_, hsome.symm⟩
  · rintro ⟨j, rfl⟩
    have ht : ((2 : Int) ^ j).toNat = 2 ^ j := by
      rw [show ((2 : Int) ^ j) = ((2 ^ j : Nat) : Int) by push_cast; ring,
        Int.toNat_natCast]
    rw [ht, log2_nat_pow]

/-- C7: for a dimension range with nonzero step, `get_size` returns the
exact quotient `(end − origin) / step` when the step divides the span, and
raises exactly when it does not; it is a pure function. -/
theorem get_size_spec (origin step stop : Int) (hstep : step ≠ 0) :
    (∀ q, get_size (origin, step, stop) = .ok q → q * step = stop - origin) ∧
    ((∃ q, get_size (origin, step, stop) = .ok q) ↔ step ∣ (stop - origin)) ∧
    ((∃ msg, get_size (origin, step, stop) = .error msg) ↔
      ¬ step ∣ (stop - origin)) := by
  simp only [get_size]
  rw [if_neg hstep]
  by_cases hdvd : step ∣ (stop - origin)
  · rw [if_pos (Int.emod_eq_zero_of_dvd hdvd)]
    refine ⟨?_, by simp [hdvd], by simp [hdvd]⟩
    intro q hq
    simp only [Except.ok.injEq] at hq
    rw [← hq]
    exact Int.ediv_mul_cancel hdvd
  · have hmod : ¬ (stop - origin) % step = 0 := fun hc =>
      hdvd (Int.dvd_of_emod_eq_zero hc)
    rw [if_neg hmod]
    exact ⟨fun q hq => by simp at hq, by simp [hdvd], by simp [hdvd]⟩

theorem get_size_spec_witness : (5 : Int) * 2 = 10 - 0 :=
  (get_size_spec 0 2 10 (by decide)).1 5 (by rfl)

/-- C8: `create_patch_list` raises exactly when the two axes' steps differ
or the shared step is not a power of two (`math.log2` is not an integer,
or the step is non-positive so `math.log2` itself raises); in the `Except`
model an error result carries no patches, so the failure precedes any
patch production. -/
theorem create_patch_list_error_iff (dim_ranges_x dim_ranges_y : Int × Int × Int)
    (tiles tile_size : Nat × Nat) :
    (∃ msg, create_patch_list dim_ranges_x dim_ranges_y tiles tile_size =
      .error msg) ↔
      (dim_ranges_x.2.1 ≠ dim_ranges_y.2.1 ∨
        ¬ ∃ j : Nat, dim_ranges_x.2.1 = (2 : Int) ^ j) := by
  obtain ⟨ox, sx, ex⟩ := dim_ranges_x
  obtain ⟨oy, sy, ey⟩ := dim_ranges_y
  simp only [create_patch_list]
  by_cases hpos : 0 < sx
  · rw [if_neg (not_not_intro hpos)]
    by_cases hcond : sx ≠ sy ∨ (2 : Int) ^ log2_nat sx.toNat ≠ sx
    · rw [if_pos hcond]
      simp only [Except.error.injEq, exists_eq', true_iff]
      rcases hcond with hne | hpow
      · exact Or.inl hne
      · refine Or.inr (fun hex => hpow ?_)
        exact (int_pow_log2_iff sx hpos).mpr hex
    · rw [if_neg hcond]
      push_neg at hcond
      simp only [reduceCtorEq, exists_false, false_iff, not_or, not_not]
      exact ⟨hcond.1, (int_pow_log2_iff sx hpos).mp hcond.2⟩
  · rw [if_pos hpos]
    simp only [Except.error.injEq, exists_eq', true_iff]
    refine Or.inr (fun hex => ?_)
    obtain ⟨j, rfl⟩ := hex
    exact hpos (pow_pos (by norm_num) j)

/-! ### Pyramid generation -/

theorem pyramid_rest_small {α : Type} (rc : VImage α → α) (img : VImage α)
    (hsm : img.width < 256 ∨ img.height < 256) :
    pyramid_rest rc img = [] := by
  rw [pyramid_rest]
  rw [dif_neg (by omega)]

theorem pyramid_rest_large {α : Type} (rc : VImage α → α) (img : VImage α)
    (h1 : 256 ≤ img.width) (h2 : 256 ≤ img.height) :
    pyramid_rest rc img =
      resize_half rc img ::
        (if (resize_half rc img).width < 512 ∨ (resize_half rc img).height < 512
          then [] else pyramid_rest rc (resize_half rc img)) := by
  rw [pyramid_rest]
  rw [dif_pos ⟨h1, h2⟩]

theorem pyramid_rest_props {α : Type} (rc : VImage α → α) :
    ∀ n (img : VImage α), img.width ≤ n →
      (∀ i a b, (img :: pyramid_rest rc img)[i]? = some a →
        (img :: pyramid_rest rc img)[i + 1]? = some b →
        b = resize_half rc a) ∧
      (256 ≤ img.width → 256 ≤ img.height →
        pyramid_rest rc img ≠ [] ∧
        (∀ lst, (pyramid_rest rc img).getLast? = some lst →
          lst.width < 512 ∨ lst.height < 512) ∧
        (∀ i a, i + 1 < (img :: pyramid_rest rc img).length →
          (img :: pyramid_rest rc img)[i]? = some a →
          256 ≤ a.width ∧ 256 ≤ a.height)) := by
  intro n
  induction n with
  | zero =>
    intro img hw
    have hrest : pyramid_rest rc img = [] :=
      pyramid_rest_small rc img (by omega)
    rw [hrest]
    refine ⟨?_, fun h1 _ => by omega⟩
    intro i a b _ hb
    rcases i with _ | i <;> simp at hb
  | succ n ih =>
    intro img hw
    by_cases hsm : img.width < 256 ∨ img.height < 256
    · have hrest : pyramid_rest rc img = [] := pyramid_rest_small rc img hsm
      rw [hrest]
      refine ⟨?_, fun h1 h2 => by omega⟩
      intro i a b _ hb
      rcases i with _ | i <;> simp at hb
    · push_neg at hsm
      have hrest := pyramid_rest_large rc img hsm.1 hsm.2
      by_cases hbrk : (resize_half rc img).width < 512 ∨
          (resize_half rc img).height < 512
      · rw [if_pos hbrk] at hrest
        rw [hrest]
        constructor
        · intro i a b ha hb
          rcases i with _ | i
          · simp only [List.getElem?_cons_zero, Option.some.injEq] at ha
            rw [List.getElem?_cons_succ, List.getElem?_cons_zero] at hb
            simp only [Option.some.injEq] at hb
            rw [← ha, ← hb]
          · rw [List.getElem?_cons_succ] at ha hb
            rcases i with _ | i <;> simp at hb
        · intro _ _
          refine ⟨by simp, ?_, ?_⟩
          · intro lst hlst
            have hl2 : lst = resize_half rc img := by
              have := hlst
              simp at this
              exact this.symm
            rw [hl2]
            exact hbrk
          · intro i a hlen ha
            simp only [List.length_cons, List.length_nil] at hlen
            rcases i with _ | i
            · simp only [List.getElem?_cons_zero, Option.some.injEq] at ha
              rw [← ha]
              exact hsm
            · omega
      · rw [if_neg hbrk] at hrest
        push_neg at hbrk
        have hle : (resize_half rc img).width ≤ n := by
          have : (resize_half rc img).width = img.width / 2 := rfl
          omega
        obtain ⟨ihc, ihp⟩ := ih (resize_half rc img) hle
        have h256w : 256 ≤ (resize_half rc img).width := by omega
        have h256h : 256 ≤ (resize_half rc img).height := by omega
        obtain ⟨hne, hlast, hall⟩ := ihp h256w h256h
        rw [hrest]
        constructor
        · intro i a b ha hb
          rcases i with _ | i
          · simp only [List.getElem?_cons_zero, Option.some.injEq] at ha
            rw [List.getElem?_cons_succ, List.getElem?_cons_zero] at hb
            simp only [Option.some.injEq] at hb
            rw [← ha, ← hb]
          · rw [List.getElem?_cons_succ] at ha hb
            exact ihc i a b ha hb
        · intro _ _
          refine ⟨by simp, ?_, ?_⟩
          · intro lst hlst
            obtain ⟨a0, l0, heq⟩ := List.exists_cons_of_ne_nil hne
            rw [heq, List.getLast?_cons_cons] at hlst
            apply hlast
            rw [heq]
            exact hlst
          · intro i a hlen ha
            rcases i with _ | i
            · simp only [List.getElem?_cons_zero, Option.some.injEq] at ha
              rw [← ha]
              exact hsm
            · rw [List.getElem?_cons_succ] at ha
              apply hall i a ?_ ha
              simp only [List.length_cons] at hlen ⊢
              omega

/-- C3 (amended): `generate_pyramid_levels` starts with the input raster
unmodified, each later level floor-halves its predecessor's dimensions,
a base smaller than 256 in either dimension produces only itself, and for
a base at least 256×256 the loop appends at least one level, every level
except the final one is at least 256×256, and the final level — which IS
kept in the sequence — is the first to drop below 512 in some dimension
(so the final level may be smaller than both the 512 and the 256 floors). -/
theorem generate_pyramid_levels_spec {α : Type} (rc : VImage α → α)
    (img : VImage α) :
    (generate_pyramid_levels rc img).head? = some img ∧
    (∀ i a b, (generate_pyramid_levels rc img)[i]? = some a →
      (generate_pyramid_levels rc img)[i + 1]? = some b →
      b.width = a.width / 2 ∧ b.height = a.height / 2) ∧
    ((img.width < 256 ∨ img.height < 256) →
      generate_pyramid_levels rc img = [img]) ∧
    (256 ≤ img.width → 256 ≤ img.height →
      2 ≤ (generate_pyramid_levels rc img).length ∧
      (∀ lst, (generate_pyramid_levels rc img).getLast? = some lst →
        lst.width < 512 ∨ lst.height < 512) ∧
      (∀ i a, i + 1 < (generate_pyramid_levels rc img).length →
        (generate_pyramid_levels rc img)[i]? = some a →
        256 ≤ a.width ∧ 256 ≤ a.height)) := by
  obtain ⟨hcons, hprops⟩ := pyramid_rest_props rc img.width img le_rfl
  unfold generate_pyramid_levels
  refine ⟨rfl, ?_, ?_, ?_⟩
  · intro i a b ha hb
    rw [hcons i a b ha hb]
    exact ⟨rfl, rfl⟩
  · intro hsm
    rw [pyramid_rest_small rc img hsm]
  · intro h1 h2
    obtain ⟨hne, hlast, hall⟩ := hprops h1 h2
    refine ⟨?_, ?_, hall⟩
    · have := List.length_pos.mpr hne
      simp only [List.length_cons]
      omega
    · intro lst hlst
      obtain ⟨a0, l0, heq⟩ := List.exists_cons_of_ne_nil hne
      rw [heq, List.getLast?_cons_cons] at hlst
      apply hlast
      rw [heq]
      exact hlst

/-- C3 counterexample: a 300×300 base (at least 256×256, so the loop runs)
generates the level list [300×300, 150×150]; the final level is smaller
than the 256 hard floor (and than the 512 practical floor), so the
sequence does contain a level below the configured floor. -/
theorem generate_pyramid_levels_floor_counterexample :
    (generate_pyramid_levels rc_unit ⟨300, 300, ()⟩).map
        (fun im => (im.width, im.height)) = [(300, 300), (150, 150)] ∧
    ¬ (∀ lv ∈ generate_pyramid_levels rc_unit ⟨300, 300, ()⟩,
        256 ≤ lv.width ∧ 256 ≤ lv.height) ∧
    ¬ (∀ lv ∈ generate_pyramid_levels rc_unit ⟨300, 300, ()⟩,
        512 ≤ lv.width ∧ 512 ≤ lv.height) := by
  have hgen : generate_pyramid_levels rc_unit ⟨300, 300, ()⟩ =
      [⟨300, 300, ()⟩, ⟨150, 150, ()⟩] := by
    unfold generate_pyramid_levels
    rw [pyramid_rest_large rc_unit _ (by norm_num) (by norm_num)]
    simp [resize_half]
  rw [hgen]
  refine ⟨by simp, ?_, ?_⟩
  · intro hc
    have := hc ⟨150, 150, ()⟩ (by simp)
    simp at this
  · intro hc
    have := hc ⟨150, 150, ()⟩ (by simp)
    simp at this

theorem generate_pyramid_levels_spec_witness :
    generate_pyramid_levels rc_unit ⟨100, 100, ()⟩ = [⟨100, 100, ()⟩] ∧
    ((128 : Nat) < 512 ∨ (128 : Nat) < 512) := by
  constructor
  · exact (generate_pyramid_levels_spec rc_unit ⟨100, 100, ()⟩).2.2.1
      (Or.inl (by decide))
  · have hgen : generate_pyramid_levels rc_unit ⟨256, 256, ()⟩ =
        [⟨256, 256, ()⟩, ⟨128, 128, ()⟩] := by
      unfold generate_pyramid_levels
      rw [pyramid_rest_large rc_unit _ (by decide) (by decide)]
      simp [resize_half]
    have := ((generate_pyramid_levels_spec rc_unit ⟨256, 256, ()⟩).2.2.2
      (by decide) (by decide)).2.1 ⟨128, 128, ()⟩ (by rw [hgen]; rfl)
    exact this

theorem xml_pyramid_levels_small (size_x size_y : Nat)
    (hsm : size_x < 256 ∨ size_y < 256) :
    xml_pyramid_levels size_x size_y = [] := by
  rw [xml_pyramid_levels]
  rw [dif_neg (by omega)]

theorem xml_pyramid_levels_large (size_x size_y : Nat)
    (h1 : 256 ≤ size_x) (h2 : 256 ≤ size_y) :
    xml_pyramid_levels size_x size_y =
      (size_x, size_y) :: xml_pyramid_levels (size_x / 2) (size_y / 2) := by
  rw [xml_pyramid_levels]
  rw [dif_pos ⟨h1, h2⟩]

/-- C10 counterexample: for a 100×100 base image the XML enumeration of
`save_pyramidal_tiff` lists 0 pyramid levels, while
`generate_pyramid_levels` returns 1 level (the base), so the two counts
disagree. -/
theorem pyramid_level_count_counterexample :
    (xml_pyramid_levels 100 100).length = 0 ∧
    (generate_pyramid_levels rc_unit ⟨100, 100, ()⟩).length = 1 ∧
    (xml_pyramid_levels 100 100).length ≠
      (generate_pyramid_levels rc_unit ⟨100, 100, ()⟩).length := by
  have h1 : xml_pyramid_levels 100 100 = [] :=
    xml_pyramid_levels_small _ _ (by omega)
  have h2 : generate_pyramid_levels rc_unit ⟨100, 100, ()⟩ =
      [⟨100, 100, ()⟩] := by
    unfold generate_pyramid_levels
    rw [pyramid_rest_small _ _ (by decide)]
  rw [h1, h2]
  simp

/-- C10 (amended): the number of levels actually written (the length of
`generate_pyramid_levels`) equals the number of levels enumerated for the
XML metadata in `save_pyramidal_tiff`, or exceeds it by exactly one; in
particular the two counts need not be equal. -/
theorem pyramid_level_count_relation {α : Type} (rc : VImage α → α)
    (img : VImage α) :
    (generate_pyramid_levels rc img).length =
        (xml_pyramid_levels img.width img.height).length ∨
      (generate_pyramid_levels rc img).length =
        (xml_pyramid_levels img.width img.height).length + 1 := by
  suffices H : ∀ n (im : VImage α), im.width ≤ n →
      (generate_pyramid_levels rc im).length =
          (xml_pyramid_levels im.width im.height).length ∨
        (generate_pyramid_levels rc im).length =
          (xml_pyramid_levels im.width im.height).length + 1 from
    H img.width img le_rfl
  intro n
  induction n with
  | zero =>
    intro im hw
    right
    unfold generate_pyramid_levels
    rw [pyramid_rest_small _ _ (by omega), xml_pyramid_levels_small _ _ (by omega)]
    rfl
  | succ n ih =>
    intro im hw
    by_cases hsm : im.width < 256 ∨ im.height < 256
    · right
      unfold generate_pyramid_levels
      rw [pyramid_rest_small _ _ hsm, xml_pyramid_levels_small _ _ hsm]
      rfl
    · push_neg at hsm
      have hx := xml_pyramid_levels_large _ _ hsm.1 hsm.2
      have hg := pyramid_rest_large rc im hsm.1 hsm.2
      have hnw : (resize_half rc im).width = im.width / 2 := rfl
      have hnh : (resize_half rc im).height = im.height / 2 := rfl
      by_cases hbrk : (resize_half rc im).width < 512 ∨
          (resize_half rc im).height < 512
      · rw [if_pos hbrk] at hg
        rw [hnw, hnh] at hbrk
        by_cases hsm2 : im.width / 2 < 256 ∨ im.height / 2 < 256
        · right
          unfold generate_pyramid_levels
          rw [hg, hx, xml_pyramid_levels_small _ _ hsm2]
          rfl
        · push_neg at hsm2
          left
          have hx2 := xml_pyramid_levels_large _ _ hsm2.1 hsm2.2
          have hsm3 : im.width / 2 / 2 < 256 ∨ im.height / 2 / 2 < 256 := by
            omega
          unfold generate_pyramid_levels
          rw [hg, hx, hx2, xml_pyramid_levels_small _ _ hsm3]
          rfl
      · rw [if_neg hbrk] at hg
        push_neg at hbrk
        have hle : (resize_half rc im).width ≤ n := by
          rw [hnw]
          omega
        have hrec := ih (resize_half rc im) hle
        unfold generate_pyramid_levels at hrec
        rw [hnw, hnh] at hrec
        unfold generate_pyramid_levels
        rw [hg, hx]
        simp only [List.length_cons] at hrec ⊢
        omega

/-! ### Multi-directory writer -/

theorem enum_map_fst_comp {β γ : Type} (L : List β) (g : Nat → γ) :
    L.enum.map (fun li => g li.1) = (List.range L.length).map g := by
  rw [List.enum_eq_zip_range,
    show (fun li : Nat × β => g li.1) = g ∘ Prod.fst from rfl,
    ← List.map_map, List.map_fst_zip _ _ (by simp)]

/-- C4: with a working writer (`assembly_fails = false`), the
multi-directory container has directory 0 carrying the full-resolution
subfile type (0) and produced from pyramid level 0; every later directory
carries the reduced-resolution subfile type (1); and when both auxiliary
images are supplied the directory order is all pyramid levels (finest
first, tagged level 0, 1, 2, …) followed by the overview ("macro") image
and then, strictly last, the label image. -/
theorem save_multi_directory_layout {α : Type}
    (pixel_size_x pixel_size_y : ℚ) (tile_size : Nat)
    (rc : VImage α → α) (vips_image : VImage α)
    (overview_image label_image : Option (VImage α))
    (save_params : SaveParams) :
    ∃ dirs logs,
      save_multi_directory_tiff_with_xml pixel_size_x pixel_size_y tile_size
          rc vips_image overview_image label_image save_params false =
        .multi_dir dirs logs ∧
      (∃ d0, dirs.head? = some d0 ∧ d0.subfiletype = 0 ∧
        d0.src = .pyramid_level 0) ∧
      (∀ d ∈ dirs.tail, d.subfiletype = 1) ∧
      (∀ m l, overview_image = some m → label_image = some l →
        ∃ pd, dirs = pd ++ [overview_dir_of m, label_dir_of l] ∧
          pd.map TiffDir.src =
            (List.range (generate_pyramid_levels rc vips_image).length).map
              TiffDirSource.pyramid_level) := by
  refine ⟨_, _, rfl, ?_, ?_, ?_⟩
  · -- directory 0
    simp only [Bool.false_eq_true, if_false, generate_pyramid_levels,
      List.enum_cons, List.map_cons, List.cons_append, List.head?_cons]
    exact ⟨_, rfl, rfl, rfl⟩
  · -- all later directories are reduced-resolution
    simp only [Bool.false_eq_true, if_false, generate_pyramid_levels,
      List.enum_cons, List.map_cons, List.cons_append, List.tail_cons]
    intro d hd
    rcases List.mem_append.mp hd with hd1 | hd2
    · rcases List.mem_append.mp hd1 with hp | ho
      · obtain ⟨li, hli, rfl⟩ := List.mem_map.mp hp
        obtain ⟨x, l, rfl⟩ :
            ∃ x l, li = (x, l) := ⟨li.1, li.2, rfl⟩
        have h1 := (List.mem_enumFrom hli).1
        simp only
        rw [if_neg (by omega)]
      · rcases overview_image with - | m
        · simp at ho
        · simp only [List.mem_singleton] at ho
          rw [ho]
    · rcases label_image with - | l
      · simp at hd2
      · simp only [List.mem_singleton] at hd2
        rw [hd2]
  · -- both auxiliary images present: macro then label, strictly last
    intro m l hm hl
    subst hm
    subst hl
    simp only [Bool.false_eq_true, if_false]
    refine ⟨_, by rw [List.append_assoc]; rfl, ?_⟩
    rw [List.map_map]
    exact enum_map_fst_comp _ _

theorem save_multi_directory_layout_witness :
    ∃ dirs logs,
      save_multi_directory_tiff_with_xml 1 1 1024 rc_unit ⟨100, 100, ()⟩
          (some ⟨10, 10, ()⟩) (some ⟨20, 20, ()⟩)
          (save_params_of 1 1 1024) false =
        .multi_dir dirs logs ∧
      (∃ d0, dirs.head? = some d0 ∧ d0.subfiletype = 0 ∧
        d0.src = .pyramid_level 0) ∧
      (∃ pd, dirs = pd ++ [overview_dir_of (⟨10, 10, ()⟩ : VImage Unit),
        label_dir_of (⟨20, 20, ()⟩ : VImage Unit)]) := by
  obtain ⟨dirs, logs, heq, hd0, -, hord⟩ :=
    save_multi_directory_layout 1 1 1024 rc_unit ⟨100, 100, ()⟩
      (some ⟨10, 10, ()⟩) (some ⟨20, 20, ()⟩) (save_params_of 1 1 1024)
  obtain ⟨pd, hpd, -⟩ := hord ⟨10, 10, ()⟩ ⟨20, 20, ()⟩ rfl rfl
  exact ⟨dirs, logs, heq, hd0, pd, hpd⟩

/-- C5: if any failure occurs during multi-directory assembly
(`assembly_fails = true`), the writer catches it and falls back to a
single pyvips `tiffsave` of the base image alone with the tiled-pyramid
save parameters — auxiliary images are dropped, the degradation is logged
(error, fallback notice and metadata warning), the failure does not
propagate (the writer is total and still returns an output), and an
output container is still produced. -/
theorem save_multi_directory_fallback {α : Type}
    (pixel_size_x pixel_size_y : ℚ) (tile_size : Nat)
    (rc : VImage α → α) (vips_image : VImage α)
    (overview_image label_image : Option (VImage α)) :
    save_multi_directory_tiff_with_xml pixel_size_x pixel_size_y tile_size
        rc vips_image overview_image label_image
        (save_params_of pixel_size_x pixel_size_y tile_size) true =
      .fallback_save vips_image.width vips_image.height
        (save_params_of pixel_size_x pixel_size_y tile_size)
        ["Failed to create multi-directory TIFF with tifffile",
         "Falling back to pyvips pyramidal save",
         "Metadata may not be properly set in fallback mode"] ∧
    (save_params_of pixel_size_x pixel_size_y tile_size).tile = true ∧
    (save_params_of pixel_size_x pixel_size_y tile_size).pyramid = true ∧
    (∀ dirs logs,
      save_multi_directory_tiff_with_xml pixel_size_x pixel_size_y tile_size
          rc vips_image overview_image label_image
          (save_params_of pixel_size_x pixel_size_y tile_size) true ≠
        .multi_dir dirs logs) ∧
    "Falling back to pyvips pyramidal save" ∈
      ["Failed to create multi-directory TIFF with tifffile",
       "Falling back to pyvips pyramidal save",
       "Metadata may not be properly set in fallback mode"] := by
  refine ⟨rfl, rfl, rfl, ?_,
    List.mem_cons_of_mem _ (List.mem_cons_self _ _)⟩
  intro dirs logs hc
  exact WriterOutcome.noConfusion hc

/-- C9: with a working writer and positive physical pixel sizes, every
pyramid directory carries resolution `10000 / pixel_size` (in
pixels-per-centimeter) on each axis with unit CENTIMETER, while the
auxiliary overview and label directories carry no resolution tags. -/
theorem save_multi_directory_resolution {α : Type}
    (pixel_size_x pixel_size_y : ℚ) (tile_size : Nat)
    (rc : VImage α → α) (vips_image : VImage α)
    (overview_image label_image : Option (VImage α))
    (save_params : SaveParams)
    (hx : 0 < pixel_size_x) (hy : 0 < pixel_size_y) :
    ∃ dirs logs,
      save_multi_directory_tiff_with_xml pixel_size_x pixel_size_y tile_size
          rc vips_image overview_image label_image save_params false =
        .multi_dir dirs logs ∧
      ∀ d ∈ dirs,
        ((∃ i, d.src = .pyramid_level i) →
          d.resolution = some (10000 / pixel_size_x, 10000 / pixel_size_y) ∧
          d.resolutionunit = some "CENTIMETER" ∧
          d.tile = some (tile_size, tile_size)) ∧
        ((d.src = .overview_dir ∨ d.src = .label_dir) →
          d.resolution = none ∧ d.resolutionunit = none ∧ d.tile = none) := by
  simp only [save_multi_directory_tiff_with_xml, Bool.false_eq_true, if_false]
  refine ⟨_, _, rfl, ?_⟩
  intro d hd
  rcases List.mem_append.mp hd with hd1 | hd2
  · rcases List.mem_append.mp hd1 with hp | ho
    · obtain ⟨li, hli, rfl⟩ := List.mem_map.mp hp
      simp only
      constructor
      · intro _
        rw [if_pos hx, if_pos hy]
        simp
      · rintro (habs | habs) <;> simp at habs
    · rcases overview_image with - | m
      · simp at ho
      · simp only [List.mem_singleton] at ho
        rw [ho]
        constructor
        · rintro ⟨i, habs⟩
          simp at habs
        · intro _
          simp [overview_dir_of]
  · rcases label_image with - | l
    · simp at hd2
    · simp only [List.mem_singleton] at hd2
      rw [hd2]
      constructor
      · rintro ⟨i, habs⟩
        simp at habs
      · intro _
        simp [label_dir_of]

theorem save_multi_directory_resolution_witness :
    ∃ dirs logs,
      save_multi_directory_tiff_with_xml 4 4 1024 rc_unit ⟨100, 100, ()⟩
          none none (save_params_of 4 4 1024) false =
        .multi_dir dirs logs ∧
      ∀ d ∈ dirs,
        ((∃ i, d.src = .pyramid_level i) →
          d.resolution = some (10000 / 4, 10000 / 4) ∧
          d.resolutionunit = some "CENTIMETER" ∧
          d.tile = some (1024, 1024)) ∧
        ((d.src = .overview_dir ∨ d.src = .label_dir) →
          d.resolution = none ∧ d.resolutionunit = none ∧ d.tile = none) :=
  save_multi_directory_resolution 4 4 1024 rc_unit ⟨100, 100, ()⟩ none none
    (save_params_of 4 4 1024) (by norm_num) (by norm_num)

/-! ### Canvas assembly -/

theorem create_patch_list_one (W H T tx ty : Nat) :
    create_patch_list (0, 1, (W : Int)) (0, 1, (H : Int)) (tx, ty) (T, T) =
      .ok ((grid_pairs tx ty T W H 1 0).map Prod.fst,
           (grid_pairs tx ty T W H 1 0).map Prod.snd) := by
  have h := create_patch_list_pow W H T 0 tx ty
  simpa using h

theorem extract_full_resolution_tiles_eq (W H T : Nat)
    (tile_source : Nat × Nat → Except String (Nat → Nat)) :
    extract_full_resolution_tiles W H T tile_source =
      (grid_pairs (ceil_div W T) (ceil_div H T) T W H 1 0).foldl
        (tile_step T H W tile_source) (fun _ _ _ => 0) := by
  unfold extract_full_resolution_tiles tile_step
  dsimp only
  rw [create_patch_list_one]
  dsimp only
  rw [zip_grid_pairs]

theorem grid_cell_wd (T W H x y : Nat) :
    ((1 + ((grid_cell T W H x y).1.x_end - (grid_cell T W H x y).1.x_start)
        / 1).toNat) = min ((x + 1) * T) W - x * T := by
  simp only [grid_cell, mul_one, Int.ediv_one]
  omega

theorem grid_cell_ht (T W H x y : Nat) :
    ((1 + ((grid_cell T W H x y).1.y_end - (grid_cell T W H x y).1.y_start)
        / 1).toNat) = min ((y + 1) * T) H - y * T := by
  simp only [grid_cell, mul_one, Int.ediv_one]
  omega

theorem tile_step_spec (T W H : Nat) (hT : 0 < T) (hW : 0 < W) (hH : 0 < H)
    (x y : Nat) (hx : x < ceil_div W T) (hy : y < ceil_div H T)
    (src : Nat × Nat → Except String (Nat → Nat))
    (out : Nat → Nat → Nat → Nat) :
    (∀ r c ch, ¬ in_tile_rect T W H x y r c →
      tile_step T H W src out (grid_cell T W H x y) r c ch = out r c ch) ∧
    (∀ buf, src (x, y) = .ok buf → ∀ r c ch, in_tile_rect T W H x y r c →
      tile_step T H W src out (grid_cell T W H x y) r c ch =
        buf (3 * ((r - y * T) * (min ((x + 1) * T) W - x * T) +
          (c - x * T)) + ch)) ∧
    (∀ msg, src (x, y) = .error msg →
      tile_step T H W src out (grid_cell T W H x y) = out) := by
  obtain ⟨hxT, -, -⟩ := axis_cell W T x hT hW hx
  obtain ⟨hyT, -, -⟩ := axis_cell H T y hT hH hy
  have hsx : (x + 1) * T = x * T + T := Nat.succ_mul x T
  have hsy : (y + 1) * T = y * T + T := Nat.succ_mul y T
  have hwd : x * T + (min ((x + 1) * T) W - x * T) = min ((x + 1) * T) W := by
    omega
  have hht : y * T + (min ((y + 1) * T) H - y * T) = min ((y + 1) * T) H := by
    omega
  have hminW : min (min ((x + 1) * T) W) W = min ((x + 1) * T) W :=
    min_eq_left (min_le_right _ _)
  have hminH : min (min ((y + 1) * T) H) H = min ((y + 1) * T) H :=
    min_eq_left (min_le_right _ _)
  unfold tile_step
  rw [grid_cell_wd, grid_cell_ht]
  show _ ∧ _ ∧ _
  cases hsrc : src ((grid_cell T W H x y).2) with
  | error msg =>
    refine ⟨fun r c ch _ => rfl, ?_, fun m _ => rfl⟩
    intro buf hbuf
    rw [show (grid_cell T W H x y).2 = (x, y) from rfl] at hsrc
    rw [hbuf] at hsrc
    cases hsrc
  | ok buf =>
    have hcond : ∀ r c,
        ((grid_cell T W H x y).2.2 * T ≤ r ∧
          r < min ((grid_cell T W H x y).2.2 * T +
            (min ((y + 1) * T) H - y * T)) H ∧
          (grid_cell T W H x y).2.1 * T ≤ c ∧
          c < min ((grid_cell T W H x y).2.1 * T +
            (min ((x + 1) * T) W - x * T)) W) ↔ in_tile_rect T W H x y r c := by
      intro r c
      show (y * T ≤ r ∧ r < min (y * T + _) H ∧ x * T ≤ c ∧
        c < min (x * T + _) W) ↔ _
      rw [hwd, hht, hminW, hminH]
      rfl
    refine ⟨?_, ?_, ?_⟩
    · intro r c ch hnot
      show process_tile _ _ _ _ _ _ _ _ _ _ _ _ = _
      simp only [process_tile, make_planar]
      rw [if_neg (fun hc => hnot ((hcond r c).mp hc))]
    · intro buf2 hbuf r c ch hin
      rw [show (grid_cell T W H x y).2 = (x, y) from rfl] at hsrc
      rw [hbuf] at hsrc
      injection hsrc with hb
      subst hb
      show process_tile _ _ _ _ _ _ _ _ _ _ _ _ = _
      simp only [process_tile, make_planar]
      rw [if_pos ((hcond r c).mpr hin)]
      rfl
    · intro msg hmsg
      rw [show (grid_cell T W H x y).2 = (x, y) from rfl] at hsrc
      rw [hmsg] at hsrc
      cases hsrc

theorem tile_rect_disjoint (T W H gx gy x y r c : Nat)
    (hne : ((x, y) : Nat × Nat) ≠ (gx, gy))
    (h0 : in_tile_rect T W H gx gy r c)
    (h1 : in_tile_rect T W H x y r c) : False := by
  unfold in_tile_rect at h0 h1
  have hc0 : c < (gx + 1) * T := lt_of_lt_of_le h0.2.2.2 (min_le_left _ _)
  have hc1 : c < (x + 1) * T := lt_of_lt_of_le h1.2.2.2 (min_le_left _ _)
  have hr0 : r < (gy + 1) * T := lt_of_lt_of_le h0.2.1 (min_le_left _ _)
  have hr1 : r < (y + 1) * T := lt_of_lt_of_le h1.2.1 (min_le_left _ _)
  have hxy : ¬ (x = gx ∧ y = gy) := by
    intro hb
    exact hne (by rw [hb.1, hb.2])
  by_cases hx : x = gx
  · subst hx
    have hy : y ≠ gy := fun hyy => hxy ⟨rfl, hyy⟩
    rcases Nat.lt_or_ge y gy with hlt | hge
    · have := Nat.mul_le_mul_right T (show y + 1 ≤ gy from hlt)
      omega
    · have hgt : gy + 1 ≤ y := by omega
      have := Nat.mul_le_mul_right T hgt
      omega
  · rcases Nat.lt_or_ge x gx with hlt | hge
    · have := Nat.mul_le_mul_right T (show x + 1 ≤ gx from hlt)
      omega
    · have hgt : gx + 1 ≤ x := by omega
      have := Nat.mul_le_mul_right T hgt
      omega

theorem foldl_tile_agree (T W H : Nat) (hT : 0 < T) (hW : 0 < W)
    (hH : 0 < H) (gx gy : Nat)
    (srcF srcO : Nat × Nat → Except String (Nat → Nat))
    (hsame : ∀ pid, pid ≠ (gx, gy) → srcF pid = srcO pid) :
    ∀ L : List (Patch × (Nat × Nat)),
      (∀ pr ∈ L, ∃ x, x < ceil_div W T ∧ ∃ y, y < ceil_div H T ∧
        pr = grid_cell T W H x y) →
      ∀ out1 out2 : Nat → Nat → Nat → Nat,
      (∀ r c ch, ¬ in_tile_rect T W H gx gy r c → out1 r c ch = out2 r c ch) →
      ∀ r c ch, ¬ in_tile_rect T W H gx gy r c →
        (L.foldl (tile_step T H W srcF) out1) r c ch =
          (L.foldl (tile_step T H W srcO) out2) r c ch := by
  intro L
  induction L with
  | nil =>
    intro _ out1 out2 hinv r c ch hnr
    exact hinv r c ch hnr
  | cons pr L ih =>
    intro hcells out1 out2 hinv r c ch hnr
    obtain ⟨x, hx, y, hy, rfl⟩ := hcells _ (List.mem_cons_self _ _)
    simp only [List.foldl_cons]
    apply ih (fun q hq => hcells q (List.mem_cons_of_mem _ hq)) _ _ ?_ r c ch
      hnr
    intro r2 c2 ch2 hnr2
    obtain ⟨specF1, specF2, specF3⟩ :=
      tile_step_spec T W H hT hW hH x y hx hy srcF out1
    obtain ⟨specO1, specO2, specO3⟩ :=
      tile_step_spec T W H hT hW hH x y hx hy srcO out2
    by_cases hpid : ((x, y) : Nat × Nat) = (gx, gy)
    · have h := hpid
      rw [Prod.mk.injEq] at h
      obtain ⟨rfl, rfl⟩ := h
      rw [specF1 r2 c2 ch2 hnr2, specO1 r2 c2 ch2 hnr2]
      exact hinv r2 c2 ch2 hnr2
    · have hsv := hsame (x, y) hpid
      cases hval : srcF (x, y) with
      | error m =>
        have hvalO : srcO (x, y) = .error m := by
          rw [← hsv]
          exact hval
        rw [specF3 m hval, specO3 m hvalO]
        exact hinv r2 c2 ch2 hnr2
      | ok buf =>
        have hvalO : srcO (x, y) = .ok buf := by
          rw [← hsv]
          exact hval
        by_cases hin : in_tile_rect T W H x y r2 c2
        · rw [specF2 buf hval r2 c2 ch2 hin, specO2 buf hvalO r2 c2 ch2 hin]
        · rw [specF1 r2 c2 ch2 hin, specO1 r2 c2 ch2 hin]
          exact hinv r2 c2 ch2 hnr2

theorem foldl_tile_zero (T W H : Nat) (hT : 0 < T) (hW : 0 < W) (hH : 0 < H)
    (gx gy : Nat) (msg : String)
    (srcF : Nat × Nat → Except String (Nat → Nat))
    (hfail : srcF (gx, gy) = .error msg) :
    ∀ L : List (Patch × (Nat × Nat)),
      (∀ pr ∈ L, ∃ x, x < ceil_div W T ∧ ∃ y, y < ceil_div H T ∧
        pr = grid_cell T W H x y) →
      ∀ out : Nat → Nat → Nat → Nat,
      (∀ r c ch, in_tile_rect T W H gx gy r c → out r c ch = 0) →
      ∀ r c ch, in_tile_rect T W H gx gy r c →
        (L.foldl (tile_step T H W srcF) out) r c ch = 0 := by
  intro L
  induction L with
  | nil =>
    intro _ out hinv r c ch hr
    exact hinv r c ch hr
  | cons pr L ih =>
    intro hcells out hinv r c ch hr
    obtain ⟨x, hx, y, hy, rfl⟩ := hcells _ (List.mem_cons_self _ _)
    simp only [List.foldl_cons]
    apply ih (fun q hq => hcells q (List.mem_cons_of_mem _ hq)) _ ?_ r c ch hr
    intro r2 c2 ch2 hr2
    obtain ⟨spec1, spec2, spec3⟩ :=
      tile_step_spec T W H hT hW hH x y hx hy srcF out
    by_cases hpid : ((x, y) : Nat × Nat) = (gx, gy)
    · have h := hpid
      rw [Prod.mk.injEq] at h
      obtain ⟨rfl, rfl⟩ := h
      rw [spec3 msg hfail]
      exact hinv r2 c2 ch2 hr2
    · have hdis : ¬ in_tile_rect T W H x y r2 c2 := fun h1 =>
        tile_rect_disjoint T W H gx gy x y r2 c2 hpid hr2 h1
      rw [spec1 r2 c2 ch2 hdis]
      exact hinv r2 c2 ch2 hr2

/-- C2 (amended): if the body of `process_tile` raises for exactly one
grid cell, the exception is caught (the extraction is total and
completes) and the resulting canvas is identical to the all-success
canvas outside that tile's rectangle, while the tile's rectangle remains
at the canvas's zero-initialized background (`np.zeros`) — not at the
configured `fill_color`, which is only passed to the SDK's
`requestRegions` as the background of returned regions and never
back-fills a failed tile. -/
theorem extract_single_tile_failure (W H T : Nat) (hT : 0 < T)
    (hW : 0 < W) (hH : 0 < H) (gx gy : Nat)
    (hgx : gx < ceil_div W T) (hgy : gy < ceil_div H T)
    (tile_ok tile_fail : Nat × Nat → Except String (Nat → Nat))
    (msg : String)
    (hsame : ∀ pid, pid ≠ (gx, gy) → tile_fail pid = tile_ok pid)
    (hfail : tile_fail (gx, gy) = .error msg) :
    (∀ r c ch, ¬ in_tile_rect T W H gx gy r c →
      extract_full_resolution_tiles W H T tile_fail r c ch =
        extract_full_resolution_tiles W H T tile_ok r c ch) ∧
    (∀ r c ch, in_tile_rect T W H gx gy r c →
      extract_full_resolution_tiles W H T tile_fail r c ch = 0) := by
  have hcells : ∀ pr ∈ grid_pairs (ceil_div W T) (ceil_div H T) T W H 1 0,
      ∃ x, x < ceil_div W T ∧ ∃ y, y < ceil_div H T ∧
        pr = grid_cell T W H x y := by
    intro pr hpr
    obtain ⟨y, hy, x, hx, rfl⟩ := mem_grid_pairs.mp hpr
    exact ⟨x, hx, y, hy, rfl⟩
  rw [extract_full_resolution_tiles_eq W H T tile_fail,
    extract_full_resolution_tiles_eq W H T tile_ok]
  constructor
  · intro r c ch hnr
    exact foldl_tile_agree T W H hT hW hH gx gy tile_fail tile_ok hsame _
      hcells _ _ (fun _ _ _ _ => rfl) r c ch hnr
  · intro r c ch hr
    exact foldl_tile_zero T W H hT hW hH gx gy msg tile_fail hfail _ hcells _
      (fun _ _ _ _ => rfl) r c ch hr

theorem extract_single_tile_failure_witness :
    extract_full_resolution_tiles 2 2 1 tile_fail_ex 1 1 0 =
      extract_full_resolution_tiles 2 2 1 tile_ok_ex 1 1 0 ∧
    extract_full_resolution_tiles 2 2 1 tile_fail_ex 0 0 0 = 0 := by
  have h := extract_single_tile_failure 2 2 1 (by decide) (by decide)
    (by decide) 0 0 (by decide) (by decide) tile_ok_ex tile_fail_ex
    "tile failure"
    (fun pid hpid => by
      unfold tile_fail_ex tile_ok_ex
      rw [if_neg hpid])
    (by rfl)
  exact ⟨h.1 1 1 0 (by decide), h.2 0 0 0 (by decide)⟩

/-- C2 counterexample: on a 2×2 canvas with tile size 1, every tile
delivering sample value 200, the default configured fill_color 255, and
the tile at grid cell (0, 0) failing, the failed tile's pixel holds 0
(the `np.zeros` canvas background), not the fill color 255 the claim
asserts; the other tiles hold their data and the run completes. -/
theorem extract_failed_tile_not_fill_color :
    extract_full_resolution_tiles 2 2 1 tile_fail_ex 0 0 0 = 0 ∧
    extract_full_resolution_tiles 2 2 1 tile_fail_ex 1 1 0 = 200 ∧
    extract_full_resolution_tiles 2 2 1 tile_fail_ex 0 0 0 ≠ 255 := by
  decide
